import Mathlib

/-!
Verification of the highlight-detection and segment-assembly core of the
AUTOMATED-VIDEO-EDITING repository.

The embedding models, over exact rationals:
 - `ai_video_editor/highlight.py` : `detect_scenes_and_highlights`.  The frame
   loop is abstracted by its observable inputs: the number of decoded frames
   `n`, the per-boundary histogram distances `diffs` (where `diffs (i-1)` is
   the Bhattacharyya distance compared when frame `i ≥ 1` is processed, a cut
   being recorded at index `i` when it exceeds 0.5), and the optical-flow
   motion-magnitude series `motion` (where `motion[j]` is the mean flow
   magnitude between frames `j` and `j+1`).  Python list slicing
   `motion_scores[s : max(s, e-1)]` is modelled with `drop`/`take`, and the
   stable `list.sort(key=..., reverse=True)` by a stable insertion sort by
   score descending (CPython's sort is stable, so the two agree extensionally).
 - `ai_video_editor/transitions.py` : `apply_transitions`.  Segments are
   modelled by their durations; `concatenate_videoclips(..., method="compose",
   padding=p)` places clip `i` at start time `sum of previous durations + i*p`
   (moviepy computes `np.cumsum([0] + [c.duration + padding for c in clips])`).
 - `ai_video_editor/pipeline.py` : `_build_sequence` and the manual-trim
   substitution in `process_single_video`.
-/

namespace AVE

/-- A highlight as produced by `detect_scenes_and_highlights`:
`(start_sec, end_sec, score)`. -/
abbrev Highlight := ℚ × ℚ × ℚ

/-- The scene-cut indices appended inside the frame loop of
`detect_scenes_and_highlights` (highlight.py lines 42-45): while processing
frame `i` (`frame_idx = i`, only once `prev_hist` exists, i.e. `i ≥ 1`), the
index `i` is appended when the histogram distance to frame `i-1` exceeds 0.5. -/
def sceneCuts (n : ℕ) (diffs : ℕ → ℚ) : List ℕ :=
  (List.range n).filter (fun i => decide (0 < i) && decide ((1 / 2 : ℚ) < diffs (i - 1)))

/-- The full boundary list `scenes` of highlight.py: initialised to `[0]`
(line 31), cut indices appended during the loop, and the total frame count
appended after the loop (line 55). -/
def sceneBoundaries (n : ℕ) (diffs : ℕ → ℚ) : List ℕ :=
  0 :: (sceneCuts n diffs ++ [n])

/-- The consecutive boundary pairs `zip(scenes[:-1], scenes[1:])`
(highlight.py line 60). -/
def scenePairs (n : ℕ) (diffs : ℕ → ℚ) : List (ℕ × ℕ) :=
  (sceneBoundaries n diffs).zip (sceneBoundaries n diffs).tail

/-- Scene score (highlight.py lines 65-66):
`seg_motion = motion_scores[s : max(s, e - 1)] if motion_scores else []` and
`score = mean(seg_motion) if seg_motion else 0.0`.  A Python slice `l[s:t]`
is `(l.drop s).take (t - s)` with clamping, and `max s (e-1)` matches the
Python `max(s, e - 1)` (for `e = 0` the Python value is `max(s, -1) = s`,
giving the empty slice, exactly as the truncated ℕ subtraction does). -/
def sceneScore (motion : List ℚ) (s e : ℕ) : ℚ :=
  let seg := if motion.isEmpty then [] else (motion.drop s).take (max s (e - 1) - s)
  if seg.isEmpty then 0 else seg.sum / seg.length

/-- Frame-rate resolution (highlight.py lines 24-26): the reported fps is
used unless it is absent or nonpositive, in which case the fallback is used
(`if not fps or fps <= 0: fps = fps_fallback`). -/
def resolveFps (reported : Option ℚ) (fallback : ℚ) : ℚ :=
  match reported with
  | none => fallback
  | some f => if f ≤ 0 then fallback else f

/-- The per-scene filter and scoring step of the loop at highlight.py
lines 60-68: skip the scene when `end_sec - start_sec < min_scene_len_sec`,
otherwise keep `(start_sec, end_sec, score)` when
`score >= motion_threshold * 0.1`. -/
def highlightOf (motion : List ℚ) (min_scene_len_sec motion_threshold fps : ℚ)
    (p : ℕ × ℕ) : Option Highlight :=
  let start_sec : ℚ := (p.1 : ℚ) / fps
  let end_sec : ℚ := (p.2 : ℚ) / fps
  if end_sec - start_sec < min_scene_len_sec then none
  else
    let score := sceneScore motion p.1 p.2
    if motion_threshold * (1 / 10) ≤ score then some (start_sec, end_sec, score) else none

/-- The highlight list as built in scene order, before the final sort
(highlight.py lines 59-68). -/
def preHighlights (n : ℕ) (diffs : ℕ → ℚ) (motion : List ℚ)
    (min_scene_len_sec motion_threshold fps : ℚ) : List Highlight :=
  (scenePairs n diffs).filterMap (highlightOf motion min_scene_len_sec motion_threshold fps)

/-- The ordering used by `highlights.sort(key=lambda x: x[2], reverse=True)`:
`a` may precede `b` exactly when `a`'s score is at least `b`'s. -/
def scoreGe (a b : Highlight) : Prop := b.2.2 ≤ a.2.2

instance : DecidableRel scoreGe := fun a b => inferInstanceAs (Decidable (b.2.2 ≤ a.2.2))

instance : IsTotal Highlight scoreGe := ⟨fun a b => le_total b.2.2 a.2.2⟩

instance : IsTrans Highlight scoreGe := ⟨fun _ _ _ h1 h2 => le_trans h2 h1⟩

/-- The stable descending sort by score of highlight.py line 71.  CPython's
`list.sort` is a stable sort, and a stable sort's output is uniquely
determined by the ordering, so insertion sort (which Mathlib's
`List.insertionSort` implements stably) is an exact model. -/
def sortHighlights (l : List Highlight) : List Highlight :=
  List.insertionSort scoreGe l

/-- Full model of `detect_scenes_and_highlights` (highlight.py lines 10-72):
`opened` is the result of `cap.isOpened()` (lines 20-22, returning `[]` when
false), `reportedFps` is `cap.get(CAP_PROP_FPS)` (`none` standing for a
missing/zero report), and the remaining arguments abstract the frame loop as
described in the file header. -/
def detect_scenes_and_highlights (opened : Bool) (reportedFps : Option ℚ) (n : ℕ)
    (diffs : ℕ → ℚ) (motion : List ℚ)
    (min_scene_len_sec motion_threshold fps_fallback : ℚ) : List Highlight :=
  if opened then
    sortHighlights (preHighlights n diffs motion min_scene_len_sec motion_threshold
      (resolveFps reportedFps fps_fallback))
  else []

/-- The sub-range selection of `_build_sequence` (pipeline.py lines 27-38):
truncate to `top_k`, pad each `(s, e, _)` to `(max 0 (s - pad),
min duration (e + pad))`, and fall back to the whole source `[(0, duration)]`
when no segment was produced.  `duration` is `clip.duration`. -/
def build_sequence (duration : ℚ) (highlights : List Highlight) (top_k : ℕ) (pad : ℚ) :
    List (ℚ × ℚ) :=
  let selected := highlights.take top_k
  let segments := selected.map (fun h => (max 0 (h.1 - pad), min duration (h.2.1 + pad)))
  if segments.isEmpty then [(0, duration)] else segments

/-- Result of `apply_transitions`: either the single segment returned
unchanged (transitions.py lines 10-11, no join logic invoked), or the
composed concatenation of all segments with the padding passed to
`concatenate_videoclips` (lines 13-16). Segments are modelled by their
durations. -/
inductive Stitched where
  | single : ℚ → Stitched
  | composed : List ℚ → ℚ → Stitched
deriving DecidableEq

/-- Character-by-character ASCII lowercasing, Python's `str.lower` on the
ASCII transition kinds used here. -/
def lowerString (s : String) : String := String.mk (s.data.map Char.toLower)

/-- The effective transition kind (transitions.py line 12):
`kind = (kind or "crossfade").lower()`.  `none` models an absent/None kind
(the parameter's default is already "crossfade"); Python's `or` also replaces
the empty string. -/
def effectiveKind (kind : Option String) : String :=
  lowerString (match kind with
   | none => "crossfade"
   | some s => if s = "" then "crossfade" else s)

/-- Model of `apply_transitions` (transitions.py lines 7-16): error on zero
segments, single segment returned unchanged, otherwise concatenation with
padding `-duration` for crossfade/fade and padding `0` for any other kind. -/
def apply_transitions (segments : List ℚ) (kind : Option String) (duration : ℚ) :
    Except String Stitched :=
  if segments.isEmpty then Except.error "No segments to stitch"
  else if segments.length = 1 then Except.ok (Stitched.single (segments.headD 0))
  else if effectiveKind kind = "crossfade" ∨ effectiveKind kind = "fade" then
    Except.ok (Stitched.composed segments (-duration))
  else
    Except.ok (Stitched.composed segments 0)

/-- Start times assigned by moviepy's `concatenate_videoclips` with
`method="compose"` and the given padding: clip `i` starts at
`sum of the previous durations + i * padding`. -/
def concatStarts (durs : List ℚ) (padding : ℚ) : List ℚ :=
  (List.range durs.length).map (fun i => (durs.take i).sum + (i : ℚ) * padding)

/-- Start times of the segments inside a `Stitched` timeline. -/
def startTimes : Stitched → List ℚ
  | Stitched.single _ => [0]
  | Stitched.composed durs padding => concatStarts durs padding

/-- The manual-trim substitution of `process_single_video` (pipeline.py
lines 64-65): `if not highlights and video_item.get("trims"): highlights =
[(t["start"], t["end"], 1.0) for t in ...]`. -/
def selectHighlights (detected : List Highlight) (trims : List (ℚ × ℚ)) : List Highlight :=
  if detected.isEmpty && !trims.isEmpty then
    trims.map (fun t => (t.1, t.2, (1 : ℚ)))
  else detected

/-- Modelled from the spec (§4.3): the scene score is the arithmetic mean of
the motion magnitudes whose frame index falls in the half-open interval
`[s, e-1)` (over the integers, so `i ∈ [s, e-1)` is `s ≤ i ∧ i + 1 < e`),
and 0 when that sub-range is empty. -/
def specSceneScore (motion : List ℚ) (s e : ℕ) : ℚ :=
  let seg := ((List.range motion.length).filter
    (fun i => decide (s ≤ i) && decide (i + 1 < e))).map (fun i => motion.getD i 0)
  if seg.isEmpty then 0 else seg.sum / seg.length

/-- C7: for every source whose media source cannot be opened,
`detect_scenes_and_highlights` returns the empty list and raises no error
(the model is a total function, so producing a value is the absence of an
exception). -/
theorem detect_unopened_empty (reportedFps : Option ℚ) (n : ℕ) (diffs : ℕ → ℚ)
    (motion : List ℚ) (min_scene_len_sec motion_threshold fps_fallback : ℚ) :
    detect_scenes_and_highlights false reportedFps n diffs motion
      min_scene_len_sec motion_threshold fps_fallback = [] := rfl

/-- C2: for every selection list, `_build_sequence` returns a non-empty
list of sub-ranges, and when the truncated highlight list is empty it is the
single segment covering the entire source. -/
theorem build_sequence_nonempty (duration : ℚ) (highlights : List Highlight)
    (top_k : ℕ) (pad : ℚ) :
    build_sequence duration highlights top_k pad ≠ [] ∧
    (highlights.take top_k = [] →
      build_sequence duration highlights top_k pad = [(0, duration)]) := by
  constructor
  · simp only [build_sequence]
    split
    · simp
    · next hne =>
      simpa [List.isEmpty_iff] using hne
  · intro h
    simp [build_sequence, h]

/-- Witness for `build_sequence_nonempty` at the empty selection. -/
theorem build_sequence_nonempty_witness :
    ([] : List Highlight).take 5 = [] ∧
    build_sequence 10 [] 5 (1 / 4) ≠ [] ∧
    build_sequence 10 [] 5 (1 / 4) = [(0, 10)] := by
  refine ⟨rfl, ?_, ?_⟩
  · exact (build_sequence_nonempty 10 [] 5 (1 / 4)).1
  · exact (build_sequence_nonempty 10 [] 5 (1 / 4)).2 rfl

/-- C9: when detection yields zero highlights and manual trims are present,
the orchestrator substitutes the trims with uniform score 1.0, and on a
10-second source with trims `[(2, 4)]` the assembler (top-K 5, pad 0.25)
produces the single padded sub-range `(1.75, 4.25)`. -/
theorem trim_substitution :
    (∀ (detected : List Highlight) (trims : List (ℚ × ℚ)), detected = [] → trims ≠ [] →
      selectHighlights detected trims = trims.map (fun t => (t.1, t.2, (1 : ℚ)))) ∧
    build_sequence 10 (selectHighlights [] [(2, 4)]) 5 (1 / 4) = [(7 / 4, 17 / 4)] := by
  constructor
  · intro detected trims hd ht
    subst hd
    simp [selectHighlights, ht]
  · norm_num [build_sequence, selectHighlights]

/-- Witness for `trim_substitution` at trims `[(2, 4)]`. -/
theorem trim_substitution_witness :
    ([] : List Highlight) = [] ∧ ([((2 : ℚ), (4 : ℚ))] : List (ℚ × ℚ)) ≠ [] ∧
    selectHighlights [] [(2, 4)] = [((2 : ℚ), (4 : ℚ), (1 : ℚ))] :=
  ⟨rfl, by decide, trim_substitution.1 [] [(2, 4)] rfl (by decide)⟩

/-- C8: `apply_transitions` fails exactly on zero segments, and a single
segment is returned unchanged (no join logic invoked). -/
theorem apply_transitions_error_iff (segments : List ℚ) (kind : Option String) (duration : ℚ) :
    ((apply_transitions segments kind duration = Except.error "No segments to stitch") ↔
      segments = []) ∧
    ∀ s : ℚ, apply_transitions [s] kind duration = Except.ok (Stitched.single s) := by
  constructor
  · constructor
    · intro h
      by_contra hne
      have hne' : segments.isEmpty = false := by
        simpa [List.isEmpty_iff] using hne
      rw [apply_transitions, if_neg (by simp [hne'])] at h
      split at h
      · simp at h
      · split at h <;> simp at h
    · intro h
      subst h
      rfl
  · intro s
    rfl

/-- Witness for `apply_transitions_error_iff` at concrete segment lists. -/
theorem apply_transitions_error_iff_witness :
    apply_transitions ([] : List ℚ) none (1 / 2) = Except.error "No segments to stitch" ∧
    apply_transitions [(3 : ℚ)] none (1 / 2) = Except.ok (Stitched.single 3) :=
  ⟨(apply_transitions_error_iff [] none (1 / 2)).1.mpr rfl,
   (apply_transitions_error_iff [] none (1 / 2)).2 3⟩

/-- C4 counterexample: with two one-second segments and the kind left
unspecified, `apply_transitions` defaults to "crossfade" and overlaps the
segments: the second segment starts at 1/2 (overlap 1/2), not back-to-back
at 1 as the claim states for an unspecified kind. -/
theorem apply_transitions_unspecified_cex :
    apply_transitions [1, 1] none (1 / 2) = Except.ok (Stitched.composed [1, 1] (-(1 / 2))) ∧
    startTimes (Stitched.composed [1, 1] (-(1 / 2))) = [0, 1 / 2] ∧
    startTimes (Stitched.composed [1, 1] (-(1 / 2))) ≠ [0, 1] := by
  refine ⟨rfl, ?_, ?_⟩ <;> norm_num [startTimes, concatStarts, List.range_succ]

/-- Start time of segment `i + 1` under `concatenate_videoclips` with the
given padding: the previous segment's start plus its duration plus the
padding. -/
theorem concatStarts_succ_getD (durs : List ℚ) (padding : ℚ) (i : ℕ)
    (h : i + 1 < durs.length) :
    (concatStarts durs padding).getD (i + 1) 0 =
      (concatStarts durs padding).getD i 0 + durs.getD i 0 + padding := by
  have hi : i < durs.length := by omega
  have hlen : (concatStarts durs padding).length = durs.length := by
    simp [concatStarts]
  rw [List.getD_eq_getElem?_getD, List.getD_eq_getElem?_getD, List.getD_eq_getElem?_getD]
  rw [List.getElem?_eq_getElem (by omega), List.getElem?_eq_getElem (by omega),
    List.getElem?_eq_getElem hi]
  simp only [concatStarts, List.getElem_map, List.getElem_range, Option.getD_some]
  have htake : durs.take (i + 1) = durs.take i ++ [durs[i]] := by
    rw [List.take_succ, List.getElem?_eq_getElem hi]
    rfl
  rw [htake, List.sum_append, List.sum_singleton]
  push_cast
  ring

/-- C4 (amended): for two or more segments, an effective kind of
"crossfade"/"fade" (including a missing or empty kind, which defaults to
"crossfade") gives padding `-duration`, so adjacent segments overlap by the
configured transition duration; any other effective kind gives padding `0`,
back-to-back. -/
theorem apply_transitions_padding (segments : List ℚ) (kind : Option String) (duration : ℚ)
    (h2 : 2 ≤ segments.length) :
    (effectiveKind kind = "crossfade" ∨ effectiveKind kind = "fade" →
      apply_transitions segments kind duration =
        Except.ok (Stitched.composed segments (-duration)) ∧
      ∀ i, i + 1 < segments.length →
        (concatStarts segments (-duration)).getD (i + 1) 0 =
          (concatStarts segments (-duration)).getD i 0 + segments.getD i 0 - duration) ∧
    (¬(effectiveKind kind = "crossfade" ∨ effectiveKind kind = "fade") →
      apply_transitions segments kind duration = Except.ok (Stitched.composed segments 0) ∧
      ∀ i, i + 1 < segments.length →
        (concatStarts segments 0).getD (i + 1) 0 =
          (concatStarts segments 0).getD i 0 + segments.getD i 0) := by
  have hne : segments.isEmpty = false := by
    cases segments with
    | nil => simp at h2
    | cons a l => rfl
  have hlen : ¬ segments.length = 1 := by omega
  constructor
  · intro hk
    refine ⟨?_, ?_⟩
    · rw [apply_transitions, if_neg (by simp [hne]), if_neg hlen, if_pos hk]
    · intro i hi
      have := concatStarts_succ_getD segments (-duration) i hi
      linarith
  · intro hk
    refine ⟨?_, ?_⟩
    · rw [apply_transitions, if_neg (by simp [hne]), if_neg hlen, if_neg hk]
    · intro i hi
      have := concatStarts_succ_getD segments 0 i hi
      linarith

/-- Witness for `apply_transitions_padding`: crossfade-by-default (missing
kind) overlaps, kind "cut" is back-to-back, on segments `[1, 2]`. -/
theorem apply_transitions_padding_witness :
    apply_transitions [1, 2] none (1 / 2) = Except.ok (Stitched.composed [1, 2] (-(1 / 2))) ∧
    (concatStarts [1, 2] (-(1 / 2))).getD 1 0 =
      (concatStarts [1, 2] (-(1 / 2))).getD 0 0 + ([1, 2] : List ℚ).getD 0 0 - 1 / 2 ∧
    apply_transitions [1, 2] (some "cut") (1 / 2) = Except.ok (Stitched.composed [1, 2] 0) ∧
    (concatStarts [1, 2] 0).getD 1 0 =
      (concatStarts [1, 2] 0).getD 0 0 + ([1, 2] : List ℚ).getD 0 0 :=
  ⟨((apply_transitions_padding [1, 2] none (1 / 2) (by decide)).1 (by decide)).1,
   ((apply_transitions_padding [1, 2] none (1 / 2) (by decide)).1 (by decide)).2 0 (by decide),
   ((apply_transitions_padding [1, 2] (some "cut") (1 / 2) (by decide)).2 (by decide)).1,
   ((apply_transitions_padding [1, 2] (some "cut") (1 / 2) (by decide)).2 (by decide)).2 0
     (by decide)⟩

/-- Index-based selection agrees with Python slicing: picking the elements
whose index lies in `[s, t)` is `drop s` then `take (t - s)`. -/
theorem range_filter_slice (l : List ℚ) :
    ∀ s t : ℕ,
      ((List.range l.length).filter (fun i => decide (s ≤ i) && decide (i < t))).map
          (fun i => l.getD i 0) =
        (l.drop s).take (t - s) := by
  induction l with
  | nil => intro s t; simp
  | cons a l ih =>
    intro s t
    rw [List.length_cons, List.range_succ_eq_map, List.filter_cons,
      List.filter_map]
    have hmap : ∀ X : List ℕ,
        (X.map Nat.succ).map (fun i => (a :: l).getD i 0) = X.map (fun i => l.getD i 0) := by
      intro X
      rw [List.map_map]
      rfl
    cases s with
    | zero =>
      cases t with
      | zero =>
        rw [if_neg (by decide)]
        have hinner : (List.range l.length).filter
            ((fun i => decide (0 ≤ i) && decide (i < 0)) ∘ Nat.succ) = [] := by
          apply List.filter_eq_nil_iff.mpr
          intro x _
          simp
        rw [hinner]
        simp
      | succ u =>
        rw [if_pos (by simp)]
        have hinner : (List.range l.length).filter
              ((fun i => decide (0 ≤ i) && decide (i < u + 1)) ∘ Nat.succ) =
            (List.range l.length).filter (fun i => decide (0 ≤ i) && decide (i < u)) := by
          apply List.filter_congr
          intro x _
          simp only [Function.comp, Nat.succ_eq_add_one]
          have h2 : decide (x + 1 < u + 1) = decide (x < u) := decide_eq_decide.mpr (by omega)
          rw [h2]
          simp
        rw [hinner, List.map_cons, hmap, ih 0 u]
        simp
    | succ v =>
      rw [if_neg (by simp)]
      have hinner : (List.range l.length).filter
            ((fun i => decide (v + 1 ≤ i) && decide (i < t)) ∘ Nat.succ) =
          (List.range l.length).filter (fun i => decide (v ≤ i) && decide (i < t - 1)) := by
        apply List.filter_congr
        intro x _
        simp only [Function.comp, Nat.succ_eq_add_one]
        have h1 : decide (v + 1 ≤ x + 1) = decide (v ≤ x) := decide_eq_decide.mpr (by omega)
        have h2 : decide (x + 1 < t) = decide (x < t - 1) := decide_eq_decide.mpr (by omega)
        rw [h1, h2]
      rw [hinner, hmap, ih v (t - 1)]
      have hsub : t - 1 - v = t - (v + 1) := by omega
      rw [hsub, List.drop_succ_cons]

/-- C6: the scene score computed by the slice
`motion_scores[s : max(s, e - 1)]` equals the spec's arithmetic mean over the
motion magnitudes with frame index in `[s, e - 1)`, and it is exactly 0 when
`e - 1 ≤ s` (over the integers, `e ≤ s + 1`) or the motion series is empty. -/
theorem scene_score_spec (motion : List ℚ) (s e : ℕ) :
    sceneScore motion s e = specSceneScore motion s e ∧
    (e ≤ s + 1 ∨ motion = [] → sceneScore motion s e = 0) := by
  have hseg : (if motion.isEmpty then [] else (motion.drop s).take (max s (e - 1) - s)) =
      (motion.drop s).take (e - 1 - s) := by
    have hsub : max s (e - 1) - s = e - 1 - s := by omega
    cases h : motion.isEmpty
    · rw [hsub]
      simp
    · rw [List.isEmpty_iff] at h
      subst h
      simp
  have hslice := range_filter_slice motion s (e - 1)
  have hcond : (List.range motion.length).filter
        (fun i => decide (s ≤ i) && decide (i + 1 < e)) =
      (List.range motion.length).filter (fun i => decide (s ≤ i) && decide (i < e - 1)) := by
    apply List.filter_congr
    intro x _
    have h2 : decide (x + 1 < e) = decide (x < e - 1) := decide_eq_decide.mpr (by omega)
    rw [h2]
  constructor
  · rw [sceneScore, specSceneScore, hcond, hslice, hseg]
  · intro h
    rw [sceneScore, hseg]
    rcases h with h | h
    · have : e - 1 - s = 0 := by omega
      rw [this]
      simp
    · subst h
      simp

/-- Witness for `scene_score_spec`: a slice instance and an empty-range
instance with explicit numbers. -/
theorem scene_score_spec_witness :
    sceneScore [4, 6, 8] 0 3 = specSceneScore [4, 6, 8] 0 3 ∧
    (3 ≤ 2 + 1 ∨ ([4, 6, 8] : List ℚ) = []) ∧
    sceneScore [4, 6, 8] 2 3 = 0 :=
  ⟨(scene_score_spec [4, 6, 8] 0 3).1, Or.inl (by omega),
   (scene_score_spec [4, 6, 8] 2 3).2 (Or.inl (by omega))⟩

/-- The detected cut indices are strictly increasing (they are appended as
the frame index advances). -/
theorem sceneCuts_pairwise_lt (n : ℕ) (d : ℕ → ℚ) : (sceneCuts n d).Pairwise (· < ·) :=
  (List.pairwise_lt_range n).filter _

/-- Every detected cut index lies strictly between 0 and the frame count. -/
theorem mem_sceneCuts_bounds {n : ℕ} {d : ℕ → ℚ} {i : ℕ} (h : i ∈ sceneCuts n d) :
    0 < i ∧ i < n := by
  obtain ⟨hmem, hcond⟩ := List.mem_filter.mp h
  refine ⟨?_, List.mem_range.mp hmem⟩
  have := (Bool.and_eq_true _ _).mp hcond
  exact of_decide_eq_true this.1

/-- The boundary list is nondecreasing. -/
theorem sceneBoundaries_pairwise_le (n : ℕ) (d : ℕ → ℚ) :
    (sceneBoundaries n d).Pairwise (· ≤ ·) := by
  rw [sceneBoundaries, List.pairwise_cons]
  constructor
  · intro x _
    exact Nat.zero_le x
  · rw [List.pairwise_append]
    refine ⟨(sceneCuts_pairwise_lt n d).imp le_of_lt, List.pairwise_singleton _ _, ?_⟩
    intro a ha b hb
    rw [List.mem_singleton] at hb
    subst hb
    exact le_of_lt (mem_sceneCuts_bounds ha).2

/-- Every boundary is at most the frame count. -/
theorem mem_sceneBoundaries_le {n : ℕ} {d : ℕ → ℚ} {x : ℕ}
    (hx : x ∈ sceneBoundaries n d) : x ≤ n := by
  rcases List.mem_cons.mp hx with h | h
  · subst h
    exact Nat.zero_le n
  · rcases List.mem_append.mp h with h | h
    · exact le_of_lt (mem_sceneCuts_bounds h).2
    · rw [List.mem_singleton] at h
      omega

/-- Consecutive-pair lists are contiguous: each pair ends where the next
begins. -/
theorem chain_eq_zip_tail :
    ∀ l : List ℕ, List.Chain' (fun p q : ℕ × ℕ => p.2 = q.1) (l.zip l.tail)
  | [] => List.chain'_nil
  | [_] => List.chain'_nil
  | _ :: b :: t => by
    cases t with
    | nil => exact List.chain'_singleton _
    | cons c t' =>
      exact List.Chain'.cons rfl (chain_eq_zip_tail (b :: c :: t'))

/-- In the consecutive-pair list of a nondecreasing list, each pair is a
valid interval. -/
theorem zip_tail_fst_le :
    ∀ l : List ℕ, l.Pairwise (· ≤ ·) → ∀ p ∈ l.zip l.tail, p.1 ≤ p.2
  | [], _, p, hp => by simp at hp
  | [_], _, p, hp => by simp at hp
  | a :: b :: t, h, p, hp => by
    rw [List.pairwise_cons] at h
    obtain ⟨ha, ht⟩ := h
    rcases List.mem_cons.mp hp with hp | hp
    · subst hp
      exact ha b (List.mem_cons_self b t)
    · exact zip_tail_fst_le (b :: t) ht p hp

/-- In the consecutive-pair list of a nondecreasing list, the pairs are
pairwise non-overlapping: an earlier pair ends no later than a later pair
begins. -/
theorem zip_tail_pairwise_disjoint :
    ∀ l : List ℕ, l.Pairwise (· ≤ ·) →
      (l.zip l.tail).Pairwise (fun p q : ℕ × ℕ => p.2 ≤ q.1)
  | [], _ => List.Pairwise.nil
  | [_], _ => by simp
  | a :: b :: t, h => by
    rw [List.pairwise_cons] at h
    obtain ⟨ha, ht⟩ := h
    refine List.pairwise_cons.mpr ⟨?_, zip_tail_pairwise_disjoint (b :: t) ht⟩
    intro q hq
    obtain ⟨x, y⟩ := q
    have hq1 : x ∈ b :: t := (List.of_mem_zip hq).1
    rcases List.mem_cons.mp hq1 with h1 | h1
    · subst h1
      exact le_refl _
    · exact (List.pairwise_cons.mp ht).1 x h1

/-- C1: for every frame-feature sequence, the boundary list starts at 0 and
ends at the total frame count, and the scenes formed from consecutive
boundary pairs are contiguous (each ends where the next begins), pairwise
non-overlapping, and valid intervals — they partition `[0, n]`. -/
theorem scene_boundaries_partition (n : ℕ) (d : ℕ → ℚ) :
    (sceneBoundaries n d).head? = some 0 ∧
    (sceneBoundaries n d).getLast? = some n ∧
    List.Chain' (fun p q : ℕ × ℕ => p.2 = q.1) (scenePairs n d) ∧
    (scenePairs n d).Pairwise (fun p q : ℕ × ℕ => p.2 ≤ q.1) ∧
    ∀ p ∈ scenePairs n d, p.1 ≤ p.2 := by
  refine ⟨rfl, ?_, ?_, ?_, ?_⟩
  · rw [show sceneBoundaries n d = (0 :: sceneCuts n d) ++ [n] from rfl]
    exact List.getLast?_concat _
  · exact chain_eq_zip_tail (sceneBoundaries n d)
  · exact zip_tail_pairwise_disjoint (sceneBoundaries n d) (sceneBoundaries_pairwise_le n d)
  · exact zip_tail_fst_le (sceneBoundaries n d) (sceneBoundaries_pairwise_le n d)

/-- Inversion of the per-scene step: a kept highlight is exactly the padded
pair in seconds with the scene's score, its duration passed the minimum-length
filter and its score passed the scaled threshold. -/
theorem highlightOf_eq_some {motion : List ℚ} {msl mt fps : ℚ} {p : ℕ × ℕ}
    {h : Highlight} (hf : highlightOf motion msl mt fps p = some h) :
    h = ((p.1 : ℚ) / fps, (p.2 : ℚ) / fps, sceneScore motion p.1 p.2) ∧
    msl ≤ (p.2 : ℚ) / fps - (p.1 : ℚ) / fps ∧
    mt * (1 / 10) ≤ sceneScore motion p.1 p.2 := by
  simp only [highlightOf] at hf
  split at hf
  · exact absurd hf (by simp)
  · next h1 =>
    split at hf
    · next h2 =>
      rw [Option.some.injEq] at hf
      exact ⟨hf.symm, le_of_not_lt h1, h2⟩
    · exact absurd hf (by simp)

/-- C5: every highlight returned by `detect_scenes_and_highlights` has
duration at least the configured minimum scene length and score at least
`motionThreshold * 0.1`; contrapositively, a scene failing either bound is
never present in the output. -/
theorem highlights_filtered (reportedFps : Option ℚ) (n : ℕ) (diffs : ℕ → ℚ)
    (motion : List ℚ) (min_scene_len_sec motion_threshold fps_fallback : ℚ) :
    ∀ h ∈ detect_scenes_and_highlights true reportedFps n diffs motion
        min_scene_len_sec motion_threshold fps_fallback,
      min_scene_len_sec ≤ h.2.1 - h.1 ∧ motion_threshold * (1 / 10) ≤ h.2.2 := by
  intro h hmem
  rw [detect_scenes_and_highlights, if_pos rfl] at hmem
  rw [sortHighlights, List.mem_insertionSort] at hmem
  rw [preHighlights, List.mem_filterMap] at hmem
  obtain ⟨p, _, hf⟩ := hmem
  obtain ⟨he, h1, h2⟩ := highlightOf_eq_some hf
  subst he
  exact ⟨h1, h2⟩

/-- Witness for `highlights_filtered`: a 4-frame input with one surviving
scene `(0, 4, 1)`. -/
theorem highlights_filtered_witness :
    ((0 : ℚ), (4 : ℚ), (1 : ℚ)) ∈
      detect_scenes_and_highlights true (some 1) 4 (fun _ => 0) [1, 1, 1] 2 5 30 ∧
    (2 : ℚ) ≤ 4 - 0 ∧ (5 : ℚ) * (1 / 10) ≤ 1 := by
  have hmem : ((0 : ℚ), (4 : ℚ), (1 : ℚ)) ∈
      detect_scenes_and_highlights true (some 1) 4 (fun _ => 0) [1, 1, 1] 2 5 30 := by
    norm_num [detect_scenes_and_highlights, sortHighlights, preHighlights, scenePairs,
      sceneBoundaries, sceneCuts, resolveFps, highlightOf, sceneScore, List.range_succ,
      List.filter_cons, List.filterMap_cons, List.insertionSort, List.orderedInsert]
  exact ⟨hmem, highlights_filtered (some 1) 4 (fun _ => 0) [1, 1, 1] 2 5 30 (0, 4, 1) hmem⟩

/-- Filtering the equal-score elements commutes with an ordered insert:
every element the insert walks past has a strictly larger score than the
inserted one. -/
theorem filter_orderedInsert_score (c : ℚ) (x : Highlight) :
    ∀ l : List Highlight,
      (List.orderedInsert scoreGe x l).filter (fun y => decide (y.2.2 = c)) =
        if x.2.2 = c then x :: l.filter (fun y => decide (y.2.2 = c))
        else l.filter (fun y => decide (y.2.2 = c))
  | [] => by
    by_cases hx : x.2.2 = c <;> simp [hx, List.filter_cons]
  | y :: l => by
    rw [List.orderedInsert]
    by_cases hxy : scoreGe x y
    · rw [if_pos hxy]
      by_cases hx : x.2.2 = c <;> simp [hx, List.filter_cons]
    · rw [if_neg hxy]
      have hylt : x.2.2 < y.2.2 := lt_of_not_le hxy
      by_cases hx : x.2.2 = c
      · have hy : ¬(y.2.2 = c) := by
          intro hyc
          rw [hx] at hylt
          rw [hyc] at hylt
          exact lt_irrefl c hylt
        simp [List.filter_cons, filter_orderedInsert_score c x l, hx, hy]
      · simp [List.filter_cons, filter_orderedInsert_score c x l, hx]

/-- Stability of the descending score sort: for every score value, the
equal-score elements appear in the sorted output in their original order. -/
theorem filter_sortHighlights (c : ℚ) :
    ∀ l : List Highlight,
      (sortHighlights l).filter (fun y => decide (y.2.2 = c)) =
        l.filter (fun y => decide (y.2.2 = c))
  | [] => rfl
  | x :: l => by
    rw [sortHighlights, List.insertionSort,
      filter_orderedInsert_score c x (List.insertionSort scoreGe l)]
    have ih := filter_sortHighlights c l
    rw [sortHighlights] at ih
    by_cases hx : x.2.2 = c
    · rw [if_pos hx, ih, List.filter_cons, if_pos (by simp [hx])]
    · rw [if_neg hx, ih, List.filter_cons, if_neg (by simp [hx])]

/-- C3: the output of `detect_scenes_and_highlights` is sorted by score in
descending order, and for every score value the equal-score highlights keep
the relative order of their originating scenes (the order of
`preHighlights`, the pre-sort scene-order list). -/
theorem highlights_sorted_stable (reportedFps : Option ℚ) (n : ℕ) (diffs : ℕ → ℚ)
    (motion : List ℚ) (min_scene_len_sec motion_threshold fps_fallback : ℚ) :
    List.Sorted scoreGe (detect_scenes_and_highlights true reportedFps n diffs motion
      min_scene_len_sec motion_threshold fps_fallback) ∧
    ∀ c : ℚ,
      (detect_scenes_and_highlights true reportedFps n diffs motion
          min_scene_len_sec motion_threshold fps_fallback).filter
          (fun y => decide (y.2.2 = c)) =
        (preHighlights n diffs motion min_scene_len_sec motion_threshold
          (resolveFps reportedFps fps_fallback)).filter (fun y => decide (y.2.2 = c)) := by
  rw [detect_scenes_and_highlights, if_pos rfl]
  exact ⟨List.sorted_insertionSort scoreGe _, fun c => filter_sortHighlights c _⟩

/-- C10: the highlight intervals are pairwise non-overlapping (in either
order, since the output is sorted by score, not time), each is a valid
interval, and each lies within `[0, totalFrames / fps]`. -/
theorem highlights_disjoint_bounded (reportedFps : Option ℚ) (n : ℕ) (diffs : ℕ → ℚ)
    (motion : List ℚ) (min_scene_len_sec motion_threshold fps_fallback : ℚ)
    (hfps : 0 < resolveFps reportedFps fps_fallback) :
    (detect_scenes_and_highlights true reportedFps n diffs motion
        min_scene_len_sec motion_threshold fps_fallback).Pairwise
      (fun a b : Highlight => a.2.1 ≤ b.1 ∨ b.2.1 ≤ a.1) ∧
    ∀ h ∈ detect_scenes_and_highlights true reportedFps n diffs motion
        min_scene_len_sec motion_threshold fps_fallback,
      0 ≤ h.1 ∧ h.1 ≤ h.2.1 ∧ h.2.1 ≤ (n : ℚ) / resolveFps reportedFps fps_fallback := by
  rw [detect_scenes_and_highlights, if_pos rfl]
  constructor
  · have hpre : (preHighlights n diffs motion min_scene_len_sec motion_threshold
        (resolveFps reportedFps fps_fallback)).Pairwise
        (fun a b : Highlight => a.2.1 ≤ b.1) := by
      rw [preHighlights]
      refine List.Pairwise.filterMap _ ?_
        (zip_tail_pairwise_disjoint (sceneBoundaries n diffs)
          (sceneBoundaries_pairwise_le n diffs))
      intro p q hpq a ha b hb
      rw [Option.mem_def] at ha hb
      obtain ⟨hea, _, _⟩ := highlightOf_eq_some ha
      obtain ⟨heb, _, _⟩ := highlightOf_eq_some hb
      subst hea
      subst heb
      have hcast : (p.2 : ℚ) ≤ (q.1 : ℚ) := by exact_mod_cast hpq
      exact (div_le_div_iff_of_pos_right hfps).mpr hcast
    have hsym : (preHighlights n diffs motion min_scene_len_sec motion_threshold
        (resolveFps reportedFps fps_fallback)).Pairwise
        (fun a b : Highlight => a.2.1 ≤ b.1 ∨ b.2.1 ≤ a.1) :=
      hpre.imp (fun hab => Or.inl hab)
    exact (List.Perm.pairwise_iff (fun hxy => hxy.symm)
      (List.perm_insertionSort scoreGe _)).mpr hsym
  · intro h hmem
    rw [sortHighlights, List.mem_insertionSort] at hmem
    rw [preHighlights, List.mem_filterMap] at hmem
    obtain ⟨p, hp, hf⟩ := hmem
    obtain ⟨he, _, _⟩ := highlightOf_eq_some hf
    subst he
    have hple : p.1 ≤ p.2 :=
      zip_tail_fst_le _ (sceneBoundaries_pairwise_le n diffs) p hp
    obtain ⟨x, y⟩ := p
    have hp2 : y ∈ sceneBoundaries n diffs :=
      List.mem_of_mem_tail (List.of_mem_zip hp).2
    have hp2n : y ≤ n := mem_sceneBoundaries_le hp2
    refine ⟨?_, ?_, ?_⟩
    · exact div_nonneg (Nat.cast_nonneg _) (le_of_lt hfps)
    · exact (div_le_div_iff_of_pos_right hfps).mpr (by exact_mod_cast hple)
    · exact (div_le_div_iff_of_pos_right hfps).mpr (by exact_mod_cast hp2n)

/-- Witness for `highlights_disjoint_bounded` at the 4-frame input. -/
theorem highlights_disjoint_bounded_witness :
    0 < resolveFps (some 1) 30 ∧
    (detect_scenes_and_highlights true (some 1) 4 (fun _ => 0) [1, 1, 1] 2 5 30).Pairwise
      (fun a b : Highlight => a.2.1 ≤ b.1 ∨ b.2.1 ≤ a.1) ∧
    (0 ≤ (0 : ℚ) ∧ (0 : ℚ) ≤ 4 ∧ (4 : ℚ) ≤ ((4 : ℕ) : ℚ) / resolveFps (some 1) 30) := by
  have hmem : ((0 : ℚ), (4 : ℚ), (1 : ℚ)) ∈
      detect_scenes_and_highlights true (some 1) 4 (fun _ => 0) [1, 1, 1] 2 5 30 := by
    norm_num [detect_scenes_and_highlights, sortHighlights, preHighlights, scenePairs,
      sceneBoundaries, sceneCuts, resolveFps, highlightOf, sceneScore, List.range_succ,
      List.filter_cons, List.filterMap_cons, List.insertionSort, List.orderedInsert]
  refine ⟨by decide, ?_, ?_⟩
  · exact (highlights_disjoint_bounded (some 1) 4 (fun _ => 0) [1, 1, 1] 2 5 30 (by decide)).1
  · exact (highlights_disjoint_bounded (some 1) 4 (fun _ => 0) [1, 1, 1] 2 5 30
      (by decide)).2 (0, 4, 1) hmem

end AVE
